import Mathlib

/-!
Verification development for the `gpt` command-line tool (Go).

The definitions below are shallow embeddings of the Go sources:
`psy/score.go`, `psy/table.go` (the CSV table code), `psy/chat.go`,
`openai/batch.go`, `openai/chat.go` and `cli/chat.go`.  Effectful
collaborators (the file system, the remote OpenAI API, the `tuid`
id generator, `math/rand`) are passed in explicitly as oracles, and
file writes are modelled by returning the would-be file contents.
Machine integers are modelled as `Int`/`Nat` (no value in these
functions ever approaches an overflow boundary) and `float32` score
values are modelled as exact rationals: every numeric value appearing
in the theorems below is a small integer or a small decimal that is
exactly representable in binary32, so no rounding behaviour is
exercised.
-/

namespace gostr

/-- ASCII decimal digit test, as the byte comparisons in the Go sources. -/
def isAsciiDigit (c : Char) : Bool :=
  '0' ≤ c && c ≤ '9'

/-- Numeric value of an ASCII digit. -/
def digitVal (c : Char) : ℕ :=
  c.toNat - '0'.toNat

/-- `unicode.IsSpace` restricted to the Latin-1 range, which is the fragment
exercised by this development (the higher-plane White_Space code points accepted
by Go are not modelled). -/
def goIsSpace (c : Char) : Bool :=
  c = ' ' || c = '\t' || c = '\n' || c = Char.ofNat 11 || c = Char.ofNat 12 ||
  c = '\r' || c = Char.ofNat 133 || c = Char.ofNat 160

/-- Longest prefix of non-space characters, together with the rest. -/
def takeWord : List Char → List Char × List Char
  | [] => ([], [])
  | c :: rest =>
    if goIsSpace c then ([], c :: rest)
    else
      let p := takeWord rest
      (c :: p.1, p.2)

theorem takeWord_length (l : List Char) : (takeWord l).2.length ≤ l.length := by
  induction l with
  | nil => simp [takeWord]
  | cons c rest ih =>
    simp only [takeWord]
    split
    · simp
    · simpa using Nat.le_succ_of_le ih

/-- Fuel-driven body of `strings.Fields`: split into maximal runs of
non-space characters.  The fuel is always at least the list length. -/
def fieldsF : ℕ → List Char → List (List Char)
  | 0, _ => []
  | _ + 1, [] => []
  | fuel + 1, c :: rest =>
    if goIsSpace c then fieldsF fuel rest
    else
      let p := takeWord rest
      (c :: p.1) :: fieldsF fuel p.2

/-- `strings.Fields`: whitespace-delimited tokens of a string. -/
def goFields (s : String) : List String :=
  (fieldsF (s.data.length + 1) s.data).map List.asString

/-- `strings.TrimSpace` (Latin-1 fragment of `unicode.IsSpace`). -/
def goTrimSpace (s : String) : String :=
  (((s.data.dropWhile goIsSpace).reverse.dropWhile goIsSpace).reverse).asString

end gostr

namespace psy

open gostr

/-- `CleanText` from `psy/table.go`: collapse all whitespace runs to single
spaces and trim the ends (`strings.Join(strings.Fields(t), " ")`). -/
def CleanText (t : String) : String :=
  String.intercalate " " (goFields t)

/-- The decimal fragment of Go `strconv.ParseFloat`: an optional sign, a
mantissa of digits with at most one dot (at least one digit), and an optional
decimal exponent.  Hexadecimal floats, `inf`/`nan` spellings, digit-separating
underscores and binary32 rounding/overflow are not modelled; no token reaching
this parser in the claims below uses them, and every value appearing in the
theorems is exactly representable.  Returns the exact rational value. -/
def goParseFloat (cs : List Char) : Option ℚ :=
  -- optional sign
  let (neg, cs) : Bool × List Char :=
    match cs with
    | '-' :: rest => (true, rest)
    | '+' :: rest => (false, rest)
    | _ => (false, cs)
  -- mantissa: digits with at most one '.'
  let mant := cs.takeWhile (fun c => isAsciiDigit c || c = '.')
  let rest := cs.dropWhile (fun c => isAsciiDigit c || c = '.')
  if (mant.filter isAsciiDigit).length = 0 then none
  else if (mant.filter (fun c => c = '.')).length > 1 then none
  else
    let intPart := mant.takeWhile (fun c => c ≠ '.')
    let fracPart := (mant.dropWhile (fun c => c ≠ '.')).drop 1
    -- optional exponent
    let expVal : Option ℤ :=
      match rest with
      | [] => some 0
      | e :: es =>
        if e = 'e' || e = 'E' then
          let (eneg, ds) : Bool × List Char :=
            match es with
            | '-' :: rest2 => (true, rest2)
            | '+' :: rest2 => (false, rest2)
            | _ => (false, es)
          if ds.length = 0 || !(ds.all isAsciiDigit) then none
          else
            let n : ℕ := ds.foldl (fun acc c => 10 * acc + digitVal c) 0
            some (if eneg then -(n : ℤ) else (n : ℤ))
        else none
    match expVal with
    | none => none
    | some e =>
      let i : ℕ := intPart.foldl (fun acc c => 10 * acc + digitVal c) 0
      let f : ℕ := fracPart.foldl (fun acc c => 10 * acc + digitVal c) 0
      let num : ℤ := ((i * 10 ^ fracPart.length + f : ℕ) : ℤ) * 10 ^ e.toNat
      let den : ℕ := 10 ^ fracPart.length * 10 ^ (-e).toNat
      some (mkRat (if neg then -num else num) den)

/-- The trailing-strip loop of `ParseScore`: repeatedly remove the last
character while it is not an ASCII digit. -/
def stripTrailingNonDigits (cs : List Char) : List Char :=
  (cs.reverse.dropWhile (fun c => !isAsciiDigit c)).reverse

/-- `ParseScore` from `psy/score.go`: reject words that do not start with a
sign or digit, strip trailing non-digit characters, then parse as a float.
(Go works on bytes; every byte of a multi-byte UTF-8 character is ≥ 0x80 and
hence not a sign or an ASCII digit, so the character-level model agrees with
the byte-level loop.) -/
def ParseScore (s : String) : Option ℚ :=
  match s.data with
  | [] => none
  | c :: rest =>
    if c ≠ '-' && c ≠ '+' && !isAsciiDigit c then none
    else goParseFloat (stripTrailingNonDigits (c :: rest))

/-- `Selection` from `psy/score.go` (a Go string type). -/
abbrev Selection := String

/-- The `first` selection policy. -/
def First : Selection := "first"

/-- The `last` selection policy. -/
def Last : Selection := "last"

/-- The `all` selection policy. -/
def All : Selection := "all"

/-- The `none` selection policy. -/
def None : Selection := "none"

/-- `Selection.IsValid`. -/
def Selection.IsValid (s : Selection) : Bool :=
  s = First || s = Last || s = All || s = None

/-- The first/last scan loop of `SelectScores`: first field that parses. -/
def firstScore : List String → Option ℚ
  | [] => none
  | f :: rest =>
    match ParseScore f with
    | some q => some q
    | none => firstScore rest

/-- `SelectScores` from `psy/score.go`. -/
def SelectScores (s : String) (sel : Selection) : List ℚ :=
  if s = "" || sel = None || !sel.IsValid then []
  else
    let fields := goFields s
    if fields.length = 0 then []
    else
      let fields := if sel = Last then fields.reverse else fields
      if sel = First || sel = Last then
        match firstScore fields with
        | some q => [q]
        | none => []
      else
        fields.filterMap ParseScore

/-- `Record` from `psy/table.go`: a Go `map[string]string`, modelled as an
association list with (at most) one entry per key.  A missing key reads as
the empty string, as a Go map read does. -/
abbrev Record := List (String × String)

/-- Go map read `record[name]` (zero value `""` when absent). -/
def Record.get (r : Record) (name : String) : String :=
  match r.find? (fun e => e.1 = name) with
  | some e => e.2
  | none => ""

/-- Go map write `record[name] = value`: overwrite in place, else append. -/
def Record.set (r : Record) (name value : String) : Record :=
  if r.any (fun e => e.1 = name) then
    r.map (fun e => if e.1 = name then (name, value) else e)
  else
    r ++ [(name, value)]

/-- `Table` from `psy/table.go`. -/
structure Table where
  FieldNames : List String
  Records : List Record
deriving DecidableEq

/-- `Table.FieldCount`. -/
def Table.FieldCount (t : Table) : ℕ :=
  t.FieldNames.length

/-- `Table.RecordCount`. -/
def Table.RecordCount (t : Table) : ℕ :=
  t.Records.length

/-- `Table.HasField`. -/
def Table.HasField (t : Table) (name : String) : Bool :=
  t.FieldNames.any (fun n => n = name)

/-- `Table.AddField`: append the name if it is not already present.  (The Go
method mutates the receiver; the model returns the updated table.) -/
def Table.AddField (t : Table) (name : String) : Table :=
  if t.HasField name then t
  else { t with FieldNames := t.FieldNames ++ [name] }

/-- `Table.Record`: first record whose field `name` equals `value`. -/
def Table.Record (t : Table) (name value : String) : Option Record :=
  t.Records.find? (fun r => r.get name = value)

/-- Index of the record `Table.Record` returns (for modelling the in-place
mutation of the record the Go method hands out a pointer to). -/
def Table.recordIdx (t : Table) (name value : String) : Option ℕ :=
  t.Records.findIdx? (fun r => r.get name = value)

end psy

namespace gocsv

open gostr

/-!
Model of the fragment of Go `encoding/csv` exercised by `psy/table.go`:
a `csv.Writer` with the default configuration (`Comma = ','`,
`UseCRLF = false`) and a `csv.Reader` with the default configuration
(`Comma = ','`, `LazyQuotes = false`, `TrimLeadingSpace = false`,
`FieldsPerRecord = 0`, i.e. fixed by the first record).  The reader's
normalization of `\r\n` to `\n` is not modelled (no input in this
development contains a carriage return), and `unicode.IsSpace` is
modelled on the Latin-1 range as in `gostr.goIsSpace`.
-/

/-- Read a plain (unquoted) field: characters up to the next separator.
A bare quote inside the field is an error (`LazyQuotes = false`). -/
def takePlain : List Char → Except String (List Char × List Char)
  | [] => .ok ([], [])
  | c :: rest =>
    if c = ',' || c = '\n' then .ok ([], c :: rest)
    else if c = '"' then .error "bare quote in non-quoted field"
    else do
      let (f, r) ← takePlain rest
      .ok (c :: f, r)

/-- Read the body of a quoted field after the opening quote; a doubled quote
is an escaped quote, the closing quote ends the field. -/
def takeQuoted : List Char → Except String (List Char × List Char)
  | [] => .error "extraneous or missing quote in quoted field"
  | '"' :: '"' :: rest => do
    let (f, r) ← takeQuoted rest
    .ok ('"' :: f, r)
  | '"' :: rest => .ok ([], rest)
  | c :: rest => do
    let (f, r) ← takeQuoted rest
    .ok (c :: f, r)

/-- Read one field; the remaining input begins with the separator (a comma,
a newline, or the end of the input). -/
def parseField (cs : List Char) : Except String (List Char × List Char) :=
  match cs with
  | '"' :: rest => do
    let (f, r) ← takeQuoted rest
    match r with
    | [] => .ok (f, r)
    | c :: _ =>
      if c = ',' || c = '\n' then .ok (f, r)
      else .error "extraneous or missing quote in quoted field"
  | _ => takePlain cs

/-- Read the fields of one record (fuel-driven; the fuel always exceeds the
input length). -/
def parseRecordF : ℕ → List Char → Except String (List String × List Char)
  | 0, _ => .error "out of fuel"
  | fuel + 1, cs => do
    let (f, r) ← parseField cs
    match r with
    | ',' :: r2 => do
      let (fs, rest) ← parseRecordF fuel r2
      .ok (f.asString :: fs, rest)
    | '\n' :: r2 => .ok ([f.asString], r2)
    | _ => .ok ([f.asString], [])

/-- Read all records; empty lines are skipped, as `csv.Reader` does. -/
def parseRecordsF : ℕ → List Char → Except String (List (List String))
  | 0, _ => .error "out of fuel"
  | _ + 1, [] => .ok []
  | fuel + 1, '\n' :: rest => parseRecordsF fuel rest
  | fuel + 1, cs => do
    let (fs, rest) ← parseRecordF (cs.length + 1) cs
    let rs ← parseRecordsF fuel rest
    .ok (fs :: rs)

/-- Parse a whole CSV input into records. -/
def parseRecords (s : String) : Except String (List (List String)) :=
  parseRecordsF (s.data.length + 1) s.data

end gocsv

namespace psy

open gostr gocsv

/-- Header validation loop of `ReadCSVTable`: trim each name, synthesize
`columnN` for blank names, fail on duplicates. -/
def headerLoop : List String → ℕ → List String → Except String (List String)
  | [], _, acc => .ok acc
  | name :: rest, i, acc =>
    let name := goTrimSpace name
    let name := if name = "" then "column" ++ toString (i + 1) else name
    if acc.any (fun n => n = name) then
      .error ("duplicate column name " ++ name)
    else
      headerLoop rest (i + 1) (acc ++ [name])

/-- Header validation of `ReadCSVTable`: trim each name, synthesize
`columnN` for blank names, fail on duplicates. -/
def headerNames (names : List String) : Except String (List String) :=
  headerLoop names 0 []

/-- `ReadCSVTable` from `psy/table.go`, on file contents.  `csv.Reader`
delivers an `ErrFieldCount` error for any data row whose field count differs
from the header's (the default `FieldsPerRecord` configuration), which
`ReadCSVTable` propagates; its branch that would synthesize extra columns
for over-long rows is therefore unreachable and the model rejects such rows
directly.  A table with no data rows is an error. -/
def ReadCSVTable (path : String) (content : String) : Except String Table :=
  match parseRecords content with
  | .error e => .error ("read csv file " ++ path ++ ": " ++ e)
  | .ok [] => .error ("read csv file " ++ path ++ " header: EOF")
  | .ok (header :: rows) => do
    let names ← match headerNames header with
      | .error e => .error ("read csv file " ++ path ++ " header: " ++ e)
      | .ok names => pure names
    if rows.any (fun row => row.length ≠ names.length) then
      .error ("read csv file " ++ path ++ ": wrong number of fields")
    else
      let records : List Record := rows.map (fun row => names.zip row)
      if records.length = 0 then
        .error ("read csv file " ++ path ++ ": no records found")
      else
        .ok { FieldNames := names, Records := records }

/-- `ReadCSVFields` from `psy/table.go`: key/value pairs from two columns of
a CSV file, cleaned, skipping pairs with an empty key or value.  The Go
function fills a `map[string]string`; the model keeps the association list
ordered, overwriting duplicates in place as a map write does. -/
def ReadCSVFields (fs : String → Option String) (path keyField valueField : String) :
    Except String (List (String × String)) :=
  if path = "" then .ok []
  else if keyField = "" then .error "read csv fields: key field name is required"
  else if valueField = "" then .error "read csv fields: value field name is required"
  else do
    let table ← match fs path with
      | none => .error ("read csv fields: read csv file " ++ path ++ ": no such file")
      | some content =>
        match ReadCSVTable path content with
        | .error e => .error ("read csv fields: " ++ e)
        | .ok t => pure t
    if !table.HasField keyField then
      .error ("read csv fields: key field " ++ keyField ++ " not found in file " ++ path)
    else if !table.HasField valueField then
      .error ("read csv fields: value field " ++ valueField ++ " not found in file " ++ path)
    else
      .ok (table.Records.foldl
        (fun fields record =>
          let key := CleanText (record.get keyField)
          let value := CleanText (record.get valueField)
          if key ≠ "" && value ≠ "" then Record.set fields key value else fields)
        [])

/-- `ReadCSVField` from `psy/table.go`: one cleaned field value from the row
identified by a `name=value` pair. -/
def ReadCSVField (fs : String → Option String) (path id field : String) :
    Except String String :=
  if path = "" then .ok ""
  else if id = "" then .error "read csv field: row ID (name=value) is required"
  else if field = "" then .error "read csv field: field name is required"
  else do
    let table ← match fs path with
      | none => .error ("read csv field: read csv file " ++ path ++ ": no such file")
      | some content =>
        match ReadCSVTable path content with
        | .error e => .error ("read csv field: " ++ e)
        | .ok t => pure t
    let nameValue := id.splitOn "="
    if nameValue.length ≠ 2 then
      .error ("read csv field: ID " ++ id ++ " is not a name=value pair")
    else if !table.HasField (nameValue.getD 0 "") then
      .error ("read csv field: ID field " ++ nameValue.getD 0 "" ++ " not found in file " ++ path)
    else
      match table.Record (nameValue.getD 0 "") (nameValue.getD 1 "") with
      | none => .error ("read csv field: ID " ++ id ++ " not found in file " ++ path)
      | some record =>
        if !table.HasField field then
          .error ("read csv field: field " ++ field ++ " not found in file " ++ path)
        else
          let text := CleanText (record.get field)
          if text = "" then
            .error ("read csv field: field " ++ field ++ " for " ++ id ++ " is empty in file " ++ path)
          else
            .ok text

/-- `ReadTextFile` from `psy/table.go` over a file-system oracle (the
process-global `FileCache` only memoizes reads and is semantically
transparent, so it is not modelled). -/
def ReadTextFile (fs : String → Option String) (path : String) : Except String String :=
  if path = "" then .ok ""
  else
    match fs path with
    | none => .error ("read text file: open file " ++ path ++ ": no such file")
    | some s => .ok s

end psy

namespace openai

/-- `Message` from `openai/chat.go`. -/
structure Message where
  Role : String
  Content : String
  Name : String := ""
deriving DecidableEq

/-- The `SYSTEM` role constant. -/
def SYSTEM : String := "system"

/-- The `USER` role constant. -/
def USER : String := "user"

/-- `ChatRequest` from `openai/chat.go` (the fields this code base sets). -/
structure ChatRequest where
  Model : String := ""
  Messages : List Message := []
  Temperature : ℚ := 0
  MaxTokens : ℤ := 0
  User : String := ""
deriving DecidableEq

/-- `Usage` from `openai/chat.go`. -/
structure Usage where
  PromptTokens : ℤ := 0
  CompletionTokens : ℤ := 0
  TotalTokens : ℤ := 0
deriving DecidableEq

/-- `MessageChoice` from `openai/chat.go`. -/
structure MessageChoice where
  Message : Message
  Index : ℤ := 0
  FinishReason : String := ""
deriving DecidableEq

/-- `ChatResponse` from `openai/chat.go`. -/
structure ChatResponse where
  ID : String := ""
  Object : String := ""
  CreatedAt : ℤ := 0
  Model : String := ""
  Usage : Usage := {}
  Choices : List MessageChoice := []
deriving DecidableEq

instance : Inhabited ChatResponse := ⟨{}⟩

/-- `ChatResponse.FirstMessageContent`. -/
def ChatResponse.FirstMessageContent (c : ChatResponse) : Except String String :=
  match c.Choices with
  | [] => .error "chat: no choices found"
  | choice :: _ =>
    if choice.Message.Content = "" then .error "chat: no content found"
    else .ok choice.Message.Content

/-- `BatchError` from `openai/batch.go`. -/
structure BatchError where
  Code : String := ""
  Message : String := ""
  Param : String := ""
  Line : ℤ := 0
deriving DecidableEq

/-- `BatchError.HasError`. -/
def BatchError.HasError (e : BatchError) : Bool :=
  e.Code ≠ "" || e.Message ≠ "" || e.Param ≠ "" || e.Line > 0

/-- `BatchError.Error`: the human-readable rendering. -/
def BatchError.Error (e : BatchError) : String :=
  "error " ++ e.Code ++
    (if e.Param ≠ "" then " param " ++ e.Param else "") ++
    (if e.Line > 0 then " line " ++ toString e.Line else "") ++
    ": " ++ e.Message

/-- `BatchItemResponse` from `openai/batch.go`. -/
structure BatchItemResponse where
  StatusCode : ℤ := 0
  RequestID : String := ""
  Body : ChatResponse := {}
deriving DecidableEq

/-- `BatchResponseItem` from `openai/batch.go`. -/
structure BatchResponseItem where
  ID : String := ""
  CustomID : String := ""
  Response : BatchItemResponse := {}
  Error : BatchError := {}
deriving DecidableEq

/-- `BatchResponseItem.HasError`. -/
def BatchResponseItem.HasError (r : BatchResponseItem) : Bool :=
  r.Error.HasError

/-- `BatchResponseItem.Completion`: the first choice's message content, or
the empty string when there are no choices. -/
def BatchResponseItem.Completion (r : BatchResponseItem) : String :=
  match r.Response.Body.Choices with
  | [] => ""
  | choice :: _ => choice.Message.Content

end openai

namespace gostr

/-- `fmt.Sprintf("%f", x)`: fixed-point rendering with six fractional
digits.  The model rounds the exact rational half away from zero; every
score formatted in the theorems below has at most six exact decimal digits,
so the binary32 rounding subtleties of the real formatter are not
exercised. -/
def goFormatF (q : ℚ) : String :=
  let sign := if q < 0 then "-" else ""
  let scaled : ℕ := (q.num.natAbs * 1000000 * 2 + q.den) / (2 * q.den)
  let ip := scaled / 1000000
  let fp := scaled % 1000000
  let fpStr := toString fp
  sign ++ toString ip ++ "." ++
    (List.replicate (6 - fpStr.length) '0').asString ++ fpStr

/-- Fuel-driven body of `strings.ReplaceAll`: replace non-overlapping
occurrences of a non-empty pattern left to right. -/
def replaceAllF (pat rep : List Char) : ℕ → List Char → List Char
  | 0, _ => []
  | _ + 1, [] => []
  | fuel + 1, c :: rest =>
    if pat.isPrefixOf (c :: rest) then
      rep ++ replaceAllF pat rep fuel ((c :: rest).drop pat.length)
    else
      c :: replaceAllF pat rep fuel rest

/-- `strings.ReplaceAll` for a non-empty pattern (the Go behaviour for an
empty pattern — interleaving the replacement between runes — is never used
by this code base and is not modelled). -/
def goReplaceAll (s pat rep : String) : String :=
  if pat = "" then s
  else (replaceAllF pat.data rep.data (s.data.length + 1) s.data).asString

end gostr

namespace psy

open gostr

/-- `ChatParameters` from `psy/chat.go`. -/
structure ChatParameters where
  InputFile : String := ""
  OutputFile : String := ""
  SystemFile : String := ""
  PromptFile : String := ""
  QuestionFile : String := ""
  QuestionField : String := ""
  QuestionID : String := ""
  AnswerFile : String := ""
  AnswerField : String := ""
  AnswerID : String := ""
  ScoreField : String := ""
  ScoreSelect : Selection := ""
  Model : String := ""
  Temperature : ℚ := 0
  MaxTokens : ℤ := 0

/-- `Chat` from `psy/chat.go`.  The elapsed-time field `Millis` is carried
for structural fidelity but wall-clock measurement is not modelled (tasks
record 0). -/
structure Chat where
  ID : String := ""
  Request : openai.ChatRequest := {}
  Response : openai.ChatResponse := {}
  Scores : List ℚ := []
  ErrMsg : String := ""
  Millis : ℤ := 0
deriving DecidableEq

/-- `NewChat` from `psy/chat.go`: an optional leading system message
followed by the user message, with the id doubling as the request's user
tag. -/
def NewChat (id system prompt model : String) (temperature : ℚ) (maxTokens : ℤ) : Chat :=
  let messages : List openai.Message :=
    (if system.length > 0 then [{ Role := openai.SYSTEM, Content := system }] else []) ++
      [{ Role := openai.USER, Content := prompt }]
  { ID := id
    Request := { Model := model, Messages := messages, Temperature := temperature,
                 MaxTokens := maxTokens, User := id } }

/-- The remote chat-completion call, as an oracle: the network outcome one
concurrent task observes for its request. -/
abbrev ChatOracle := openai.ChatRequest → Except String openai.ChatResponse

/-- The body of one goroutine spawned by `CompleteChatBatch`
(`psy/chat.go`): perform the remote call, record either the response (with
scores extracted from its first message) or the error message. -/
def completeChatTask (oracle : ChatOracle) (sel : Selection) (chat : Chat) : Chat :=
  match oracle chat.Request with
  | .error e => { chat with Response := {}, ErrMsg := e, Millis := 0 }
  | .ok resp =>
    let chat := { chat with Response := resp, ErrMsg := "", Millis := 0 }
    match resp.FirstMessageContent with
    | .ok text => { chat with Scores := SelectScores text sel }
    | .error _ => chat

/-- The result map of a batch: Go `map[string]Chat`, modelled as an
association list with unique keys in first-insertion order. -/
abbrev ChatMap := List (String × Chat)

/-- Go map write `batch[id] = chat`. -/
def ChatMap.put (m : ChatMap) (k : String) (v : Chat) : ChatMap :=
  if m.any (fun e => e.1 = k) then
    m.map (fun e => if e.1 = k then (k, v) else e)
  else
    m ++ [(k, v)]

/-- Go map read. -/
def ChatMap.get (m : ChatMap) (k : String) : Option Chat :=
  (m.find? (fun e => e.1 = k)).map (fun e => e.2)

/-- `CompleteChatBatch` from `psy/chat.go`: run every chat of the batch
through the remote oracle and key the completed chats by their ids
(later chats overwrite earlier ones on a duplicate id, as the Go map write
does).  The goroutines deliver their results over a channel in an arbitrary
order; the model fixes the input order, and the properties proved below are
insensitive to that choice wherever the claim requires it. -/
def CompleteChatBatch (oracle : ChatOracle) (sel : Selection) (chats : List Chat) : ChatMap :=
  (chats.map (completeChatTask oracle sel)).foldl (fun m c => m.put c.ID c) []

/-- `Batch` from `psy/chat.go`: split into consecutive groups, closing a
group whenever its length reaches `batchSize` (a Go `int`, modelled as ℤ). -/
def Batch {α : Type} (items : List α) (batchSize : ℤ) : List (List α) :=
  let p := items.foldl
    (fun (acc : List (List α) × List α) item =>
      let b := acc.2 ++ [item]
      if (b.length : ℤ) = batchSize then (acc.1 ++ [b], []) else (acc.1, b))
    ([], [])
  if p.2.length > 0 then p.1 ++ [p.2] else p.1

end psy

namespace cli

open gostr psy

/-- The `ChatCommand` receiver state read by `generateChatRequests`
(`cli/chat.go`): the model validator of the API client and the flag-bound
fields the function reads directly from the receiver. -/
structure ChatCommandEnv where
  validModel : String → Bool
  model : String
  temperature : ℚ
  maxTokens : ℤ
  answerID : String

/-- Go map read on the side `questions` map. -/
def lookupStr (m : List (String × String)) (k : String) : Option String :=
  (m.find? (fun e => e.1 = k)).map (fun e => e.2)

/-- Which rows of the answer table `generateChatRequests` selects: all of
them, or a single one at the given index. -/
inductive SelectedRows where
  | all : SelectedRows
  | one : ℕ → SelectedRows

/-- The per-row loop of `generateChatRequests` (`cli/chat.go` lines
610–633): skip rows whose cleaned answer is blank (recording an empty
`chatID`), otherwise mint the next fresh id, record it on the row,
substitute the question/answer into the template, and build the chat
request.  The `tuid.NewID()` stream is modelled by the injective-by-intent
generator `ids` applied to consecutive counters. -/
def genLoop (env : ChatCommandEnv) (ids : ℕ → String) (p : ChatParameters)
    (system template question : String) (questions : List (String × String))
    (lookupQ : Bool) : List Record → ℕ → List Chat × List Record
  | [], _ => ([], [])
  | a :: rest, k =>
    let answer := CleanText (a.get p.AnswerField)
    if answer = "" then
      let a2 := a.set "chatID" ""
      let r := genLoop env ids p system template question questions lookupQ rest k
      (r.1, a2 :: r.2)
    else
      let chatID := ids k
      let a2 := a.set "chatID" chatID
      let q := if lookupQ then (lookupStr questions (a.get p.QuestionID)).getD "" else question
      let prompt := goReplaceAll (goReplaceAll template "{{question}}" q) "{{answer}}" answer
      let chat := NewChat chatID system prompt env.model env.temperature env.maxTokens
      let r := genLoop env ids p system template question questions lookupQ rest (k + 1)
      (chat :: r.1, a2 :: r.2)

/-- `generateChatRequests` from `cli/chat.go`: validate the model and the
score-selection policy, read the system/prompt templates, resolve the
question source, load and validate the answer table (including the
all-rows-resolve check for row-keyed question lookup), select the rows to
process, and run the per-row loop.  The file system, the model validator,
`rand.Intn` and the `tuid` id stream are oracles; the in-place mutation of
the answer table is modelled by returning the updated table. -/
def generateChatRequests (env : ChatCommandEnv) (fs : String → Option String)
    (rnd : ℕ) (ids : ℕ → String) (p : ChatParameters) :
    Except String (List Chat × Table) :=
  if !env.validModel p.Model then
    .error ("model " ++ p.Model ++ " is not a recognized model ID")
  else if !p.ScoreSelect.IsValid then
    .error ("invalid score selection (expect first, last, all, or none): " ++ p.ScoreSelect)
  else
    match ((if p.SystemFile ≠ "" then ReadTextFile fs p.SystemFile else .ok "") :
        Except String String) with
    | .error e => .error ("system file: " ++ e)
    | .ok system =>
    match ReadTextFile fs p.PromptFile with
    | .error e => .error ("prompt file: " ++ e)
    | .ok template =>
    match ((if p.QuestionFile ≠ "" then
            if p.QuestionID.data.contains '=' then
              match ReadCSVField fs p.QuestionFile p.QuestionID p.QuestionField with
              | .error e => .error ("read question: " ++ e)
              | .ok q => .ok (q, [], false)
            else
              match ReadCSVFields fs p.QuestionFile p.QuestionID p.QuestionField with
              | .error e => .error ("read questions: " ++ e)
              | .ok qs => .ok ("", qs, true)
          else .ok ("", [], false)) :
        Except String (String × List (String × String) × Bool)) with
    | .error e => .error e
    | .ok (question, questions, lookupQ) =>
    match ((match fs p.AnswerFile with
          | none => .error ("answer file: read csv file " ++ p.AnswerFile ++ ": no such file")
          | some content =>
            match ReadCSVTable p.AnswerFile content with
            | .error e => .error ("answer file: " ++ e)
            | .ok t => .ok t) :
        Except String Table) with
    | .error e => .error e
    | .ok answers =>
    if !answers.HasField p.AnswerField then
      .error ("answer field " ++ p.AnswerField ++ " not found in " ++ p.AnswerFile)
    else
    match ((if lookupQ then
            if !answers.HasField p.QuestionID then
              .error ("question ID field " ++ p.QuestionID ++ " not found in " ++ p.AnswerFile)
            else
              let unknown := answers.Records.foldl
                (fun acc (a : Record) =>
                  let qid := a.get p.QuestionID
                  if (lookupStr questions qid).isNone then acc ++ [qid] else acc)
                []
              if unknown.length > 0 then
                .error ("unknown question IDs in answer file " ++ p.AnswerFile ++ ": " ++
                  String.intercalate ", " unknown)
              else .ok ()
          else .ok ()) :
        Except String Unit) with
    | .error e => .error e
    | .ok _ =>
    match ((if p.AnswerID = "random" then
            if answers.Records.length = 0 then
              .error ("no records found in file " ++ p.AnswerFile)
            else .ok (SelectedRows.one (rnd % answers.Records.length))
          else if p.AnswerID ≠ "" then
            let nameValue := env.answerID.splitOn "="
            if nameValue.length ≠ 2 then
              .error ("answer ID " ++ env.answerID ++ " is not a name=value pair")
            else if !answers.HasField (nameValue.getD 0 "") then
              .error ("answer ID field " ++ nameValue.getD 0 "" ++ " not found in file " ++ p.AnswerFile)
            else
              match answers.recordIdx (nameValue.getD 0 "") (nameValue.getD 1 "") with
              | none => .error ("answer " ++ env.answerID ++ " not found in file " ++ p.AnswerFile)
              | some i => .ok (SelectedRows.one i)
          else .ok SelectedRows.all) :
        Except String SelectedRows) with
    | .error e => .error e
    | .ok sel =>
      let answers := answers.AddField "chatID"
      match sel with
      | .all =>
        let r := genLoop env ids p system template question questions lookupQ answers.Records 0
        .ok (r.1, { answers with Records := r.2 })
      | .one i =>
        let a := answers.Records.getD i []
        let r := genLoop env ids p system template question questions lookupQ [a] 0
        .ok (r.1, { answers with Records := answers.Records.set i (r.2.headD a) })

/-- Merging one batch's result map into the accumulated `results` map:
the `for _, chat := range r { results[chat.ID] = chat }` loops of
`parallel` (`cli/chat.go`). -/
def mergeChatMap (res : ChatMap) (r : ChatMap) : ChatMap :=
  r.foldl (fun m e => m.put e.2.ID e.2) res

/-- The concurrent phase of the `parallel` command (`cli/chat.go` lines
266–313): process the chats in sub-batches, collect every failed chat, and
issue exactly one more bulk `CompleteChatBatch` call over the failures,
whose results overwrite the originals in the merged map.  Progress printing
and timing are elided; the remote outcomes of the first pass and of the
retry pass are separate oracles, the two visits of one request being
distinct network calls. -/
def parallelResults (o1 o2 : ChatOracle) (sel : Selection) (batchSize : ℤ)
    (chats : List Chat) : ChatMap :=
  let p := (Batch chats batchSize).foldl
    (fun (acc : ChatMap × List Chat) batch =>
      let r := CompleteChatBatch o1 sel batch
      (mergeChatMap acc.1 r, acc.2 ++ (r.map (fun e => e.2)).filter (fun c => c.ErrMsg ≠ "")))
    ([], [])
  if p.2.length > 0 then mergeChatMap p.1 (CompleteChatBatch o2 sel p.2) else p.1

/-- How many remote chat-completion calls the `parallel` command issues:
zero when request building fails (the command returns before any dispatch),
otherwise one call per chat plus one per retried failure. -/
def parallelDispatchCount (env : ChatCommandEnv) (fs : String → Option String)
    (rnd : ℕ) (ids : ℕ → String) (o1 : ChatOracle) (sel : Selection)
    (batchSize : ℤ) (p : ChatParameters) : ℕ :=
  match generateChatRequests env fs rnd ids p with
  | .error _ => 0
  | .ok (chats, _) =>
    let retries := (Batch chats batchSize).foldl
      (fun acc batch =>
        acc ++ ((CompleteChatBatch o1 sel batch).map (fun e => e.2)).filter
          (fun c => c.ErrMsg ≠ ""))
      []
    chats.length + retries.length

/-- `processBatchResults` from `cli/chat.go`, from the point where the
batch's metadata, the downloaded response map and the previously persisted
results table are in hand (download, file I/O and the final write-out are
the elided effectful shell; the model returns the table that would be
written).  For each row with a known correlation id: the error rendering or
the completion text goes into the `completion` column, scores are extracted
with the recorded policy, and each score is written under the bare score
field name — or under `scoreN` once the running maximum score count has
exceeded one.  Score columns are then added according to the final maximum
count. -/
def processBatchResults (metadata : List (String × String))
    (responses : List (String × openai.BatchResponseItem)) (results : Table) : Table :=
  let scoreField := ((metadata.find? (fun e => e.1 = "score_field")).map (fun e => e.2)).getD ""
  let scoreField := if scoreField = "" then "score" else scoreField
  let scoreSelect := ((metadata.find? (fun e => e.1 = "score_select")).map (fun e => e.2)).getD ""
  let scoreSelect := if scoreSelect = "" then "last" else scoreSelect
  let p := results.Records.foldl
    (fun (acc : List Record × ℕ) record =>
      let chatID := record.get "chatID"
      if chatID = "" then (acc.1 ++ [record], acc.2)
      else
        match (responses.find? (fun e => e.1 = chatID)).map (fun e => e.2) with
        | none => (acc.1 ++ [record], acc.2)
        | some response =>
          let cs : String × List ℚ :=
            if response.HasError then (response.Error.Error, [])
            else (response.Completion, SelectScores response.Completion scoreSelect)
          let record := record.set "completion" cs.1
          let m := if cs.2.length > acc.2 then cs.2.length else acc.2
          let record := cs.2.enum.foldl
            (fun (rec : Record) iscore =>
              let field := if m > 1 then scoreField ++ toString (iscore.1 + 1) else scoreField
              rec.set field (goFormatF iscore.2))
            record
          (acc.1 ++ [record], m))
    ([], 0)
  let t := { results with Records := p.1 }
  let t := t.AddField "completion"
  if p.2 = 1 then t.AddField scoreField
  else if p.2 > 1 then
    (List.range p.2).foldl (fun t i => t.AddField (scoreField ++ toString (i + 1))) t
  else t

end cli

section ScoreTheorems

open psy gostr

/-- The first-success scan of `SelectScores` finds the head of the list of
all parseable tokens. -/
theorem firstScore_eq_head (l : List String) :
    firstScore l = (l.filterMap ParseScore).head? := by
  induction l with
  | nil => rfl
  | cons f rest ih =>
    simp only [firstScore, List.filterMap_cons]
    cases h : ParseScore f with
    | none => simpa using ih
    | some q => simp

/-- Wrapping an optional head as a singleton is taking the first element. -/
theorem singleton_head_take (l : List ℚ) :
    (match l.head? with | some q => [q] | none => []) = l.take 1 := by
  cases l <;> rfl

/-- C4: `selectScores("3 apples 7 oranges", first) = [3]`,
`selectScores(..., last) = [7]`, `selectScores(..., all) = [3, 7]`; and in
general `first` (resp. `last`) returns the singleton of the first
(resp. last) whitespace-delimited token that parses as a number — the empty
list, not an error, when no token parses — while `all` returns every parsed
token's value in left-to-right order. -/
theorem selectScores_policy_spec :
    SelectScores "3 apples 7 oranges" First = [3]
  ∧ SelectScores "3 apples 7 oranges" Last = [7]
  ∧ SelectScores "3 apples 7 oranges" All = [3, 7]
  ∧ (∀ s : String, SelectScores s First = ((goFields s).filterMap ParseScore).take 1)
  ∧ (∀ s : String, SelectScores s Last = ((goFields s).filterMap ParseScore).reverse.take 1)
  ∧ (∀ s : String, SelectScores s All = (goFields s).filterMap ParseScore) := by
  refine ⟨rfl, rfl, rfl, ?_, ?_, ?_⟩
  · intro s
    by_cases hs : s = ""
    · subst hs; rfl
    · simp only [SelectScores, hs]
      norm_num [First, Last, All, None, Selection.IsValid]
      by_cases hf : goFields s = []
      · simp [hf]
      · simp only [hf, if_neg (by simpa using hf), List.length_eq_zero]
        rw [firstScore_eq_head]
        exact singleton_head_take _
  · intro s
    by_cases hs : s = ""
    · subst hs; rfl
    · simp only [SelectScores, hs]
      norm_num [First, Last, All, None, Selection.IsValid]
      by_cases hf : goFields s = []
      · simp [hf]
      · simp only [hf, if_neg (by simpa using hf), List.length_eq_zero]
        rw [firstScore_eq_head, List.filterMap_reverse]
        exact singleton_head_take _
  · intro s
    by_cases hs : s = ""
    · subst hs; rfl
    · simp only [SelectScores, hs]
      norm_num [First, Last, All, None, Selection.IsValid]
      by_cases hf : goFields s = []
      · simp [hf]
      · simp [hf]

/-- C5 (counterexample): the token `"7.5kg,"` does not strip to `"7"` and
does not parse to the score 7 — the trailing-strip loop stops at the digit
`5`, so the claimed behaviour is false on the code. -/
theorem parseScore_trailing_strip_counterexample :
    (stripTrailingNonDigits "7.5kg,".data).asString ≠ "7" ∧ ParseScore "7.5kg," ≠ some 7 := by
  constructor
  · decide
  · intro h
    rw [show ParseScore "7.5kg," = some (mkRat 15 2) from rfl] at h
    simp at h
    norm_num at h

/-- C5 (amended): under the trailing-character stripping rule the token
`"7.5kg,"` strips to `"7.5"` — stripping removes `','`, `'g'`, `'k'` and
stops at the digit `'5'` — and therefore parses to the score 7.5. -/
theorem parseScore_trailing_strip_amended :
    (stripTrailingNonDigits "7.5kg,".data).asString = "7.5"
  ∧ ParseScore "7.5kg," = some (15 / 2 : ℚ) := by
  refine ⟨by decide, ?_⟩
  rw [show ParseScore "7.5kg," = some (mkRat 15 2) from rfl]
  norm_num

/-- C8: `AddField` is idempotent, but on the empty name it is not the no-op
the repository's own test (`table_test.go`, "Skip empty field name")
asserts: on the test's four-column table it appends a fifth, empty, column
name. -/
theorem addField_idempotent_empty_appends :
    (∀ (t : Table) (name : String), (t.AddField name).AddField name = t.AddField name)
  ∧ ((Table.AddField ⟨["pid", "qid", "essay", "score"], []⟩ "").FieldNames
      = ["pid", "qid", "essay", "score", ""]) := by
  constructor
  · intro t name
    by_cases h : t.HasField name = true
    · simp [Table.AddField, h]
    · simp only [Table.AddField, h]
      simp only [Bool.false_eq_true] at h
      simp [h, Table.HasField, List.any_append]
  · rfl

end ScoreTheorems

section BatchTheorems

open psy

/-- With a non-positive batch size the group-boundary check of `Batch`
never fires, so the fold only ever extends the current group. -/
theorem batch_foldl_nonpos {α : Type} (items : List α) (bs : ℤ) (hbs : bs ≤ 0)
    (acc1 : List (List α)) (acc2 : List α) :
    items.foldl
      (fun (acc : List (List α) × List α) item =>
        let b := acc.2 ++ [item]
        if (b.length : ℤ) = bs then (acc.1 ++ [b], []) else (acc.1, b))
      (acc1, acc2) = (acc1, acc2 ++ items) := by
  induction items generalizing acc2 with
  | nil => simp
  | cons x xs ih =>
    simp only [List.foldl_cons]
    rw [if_neg, ih]
    · simp
    · intro h
      rw [List.length_append, List.length_singleton] at h
      push_cast at h
      omega

/-- The chunking fold never records an empty group. -/
theorem batch_foldl_no_empty {α : Type} (bs : ℤ) (items : List α)
    (acc1 : List (List α)) (acc2 : List α) (h : [] ∉ acc1) :
    [] ∉ (items.foldl
      (fun (acc : List (List α) × List α) item =>
        let b := acc.2 ++ [item]
        if (b.length : ℤ) = bs then (acc.1 ++ [b], []) else (acc.1, b))
      (acc1, acc2)).1 := by
  induction items generalizing acc1 acc2 with
  | nil => simpa using h
  | cons x xs ih =>
    simp only [List.foldl_cons]
    split
    · apply ih
      simp only [List.mem_append, List.mem_singleton]
      rintro (hmem | hmem)
      · exact h hmem
      · exact absurd hmem.symm (by simp)
    · exact ih _ _ h

/-- C10: the chunking helper is total for every batch size: for any
non-positive `batchSize` it returns all the items as a single group in
their original order (and no group at all for an empty list), because the
group-boundary size check can never fire; and it never returns an empty
group for any input. -/
theorem batch_chunker_total_spec {α : Type} :
    (∀ (items : List α) (bs : ℤ), bs ≤ 0 →
      Batch items bs = if items.isEmpty then [] else [items])
  ∧ (∀ (items : List α) (bs : ℤ), [] ∉ Batch items bs) := by
  constructor
  · intro items bs hbs
    unfold Batch
    rw [batch_foldl_nonpos items bs hbs [] []]
    cases items with
    | nil => rfl
    | cons x xs => simp
  · intro items bs
    rcases hfold : (items.foldl
      (fun (acc : List (List α) × List α) item =>
        let b := acc.2 ++ [item]
        if (b.length : ℤ) = bs then (acc.1 ++ [b], []) else (acc.1, b))
      ([], [])) with ⟨b1, b2⟩
    have h1 : [] ∉ b1 := by
      have hk := batch_foldl_no_empty bs items [] [] (by simp)
      rw [hfold] at hk
      exact hk
    have hb : Batch items bs = if 0 < b2.length then b1 ++ [b2] else b1 := by
      unfold Batch
      rw [hfold]
    rw [hb]
    split
    · rename_i hlen
      simp only [List.mem_append, List.mem_singleton]
      rintro (hmem | hmem)
      · exact h1 hmem
      · rw [← hmem] at hlen; simp at hlen
    · exact h1

/-- C10 (witness): the chunker at batch size 0 on `[1, 2, 3]`. -/
theorem batch_chunker_total_spec_witness :
    ((0 : ℤ) ≤ 0 ∧ Batch [1, 2, 3] (0 : ℤ) = [[1, 2, 3]])
  ∧ [] ∉ Batch [1, 2, 3] (0 : ℤ) :=
  ⟨⟨le_refl 0, by rw [(batch_chunker_total_spec (α := ℕ)).1 [1, 2, 3] 0 (le_refl 0)]; rfl⟩,
   (batch_chunker_total_spec (α := ℕ)).2 [1, 2, 3] 0⟩

end BatchTheorems

section ChatMapTheorems

open psy

/-- A map write makes the written key map to the value and leaves every
other key unchanged. -/
theorem chatMap_get_put (m : ChatMap) (k : String) (v : Chat) (k2 : String) :
    (m.put k v).get k2 = if k2 = k then some v else m.get k2 := by
  unfold ChatMap.put ChatMap.get
  by_cases h : m.any (fun e => e.1 = k) = true
  · rw [if_pos h, List.find?_map]
    by_cases hk : k2 = k
    · subst hk
      have hp : ((fun e => decide (e.1 = k2)) ∘ (fun e : String × Chat =>
          if e.1 = k2 then (k2, v) else e)) = fun e => decide (e.1 = k2) := by
        funext e
        by_cases he : e.1 = k2 <;> simp [he]
      rw [hp]
      rw [List.any_eq_true] at h
      obtain ⟨e0, hmem, he0⟩ := h
      simp only [decide_eq_true_eq] at he0
      obtain ⟨e1, hfind⟩ : ∃ e1, m.find? (fun e => decide (e.1 = k2)) = some e1 := by
        cases hf : m.find? (fun e => decide (e.1 = k2)) with
        | none =>
          rw [List.find?_eq_none] at hf
          exact absurd (by simpa using he0) (by simpa using hf e0 hmem)
        | some e1 => exact ⟨e1, rfl⟩
      have he1 : e1.1 = k2 := by simpa using List.find?_some hfind
      rw [hfind]
      simp [he1]
    · have hp : ((fun e => decide (e.1 = k2)) ∘ (fun e : String × Chat =>
          if e.1 = k then (k, v) else e)) = fun e => decide (e.1 = k2) := by
        funext e
        by_cases he : e.1 = k
        · simp [he]
        · simp [he]
      rw [hp, if_neg hk]
      cases hf : m.find? (fun e => decide (e.1 = k2)) with
      | none => simp
      | some e1 =>
        have he1 : e1.1 = k2 := by simpa using List.find?_some hf
        have : e1.1 ≠ k := he1 ▸ hk
        simp [this]
  · rw [if_neg h, List.find?_append]
    by_cases hk : k2 = k
    · subst hk
      have hnone : m.find? (fun e => decide (e.1 = k2)) = none := by
        rw [List.find?_eq_none]
        intro e hmem
        simp only [decide_eq_true_eq]
        intro he
        exact h (List.any_eq_true.mpr ⟨e, hmem, by simpa using he⟩)
      rw [hnone]
      simp
    · rw [if_neg hk]
      cases hf : m.find? (fun e => decide (e.1 = k2)) with
      | none => simp [hf, show ¬(k = k2) from fun hh => hk (Eq.symm hh)]
      | some e1 => simp [hf]

/-- A map write extends the key list only when the key is fresh. -/
theorem chatMap_keys_put (m : ChatMap) (k : String) (v : Chat) :
    (m.put k v).map Prod.fst =
      if k ∈ m.map Prod.fst then m.map Prod.fst else m.map Prod.fst ++ [k] := by
  unfold ChatMap.put
  by_cases h : m.any (fun e => e.1 = k) = true
  · rw [if_pos h, if_pos]
    · rw [List.map_map]
      apply List.map_congr_left
      intro e _
      by_cases he : e.1 = k
      · simp [he]
      · simp [he]
    · rw [List.any_eq_true] at h
      obtain ⟨e, hmem, he⟩ := h
      simp only [decide_eq_true_eq] at he
      exact he ▸ List.mem_map_of_mem Prod.fst hmem
  · rw [if_neg h, if_neg]
    · simp
    · intro hk
      apply h
      rw [List.any_eq_true]
      obtain ⟨e, hmem, he⟩ := List.mem_map.mp hk
      exact ⟨e, hmem, by simp [he]⟩

/-- Folding map writes keyed by chat id: a lookup sees the last write for
that id, else whatever the initial map held (last-write-wins). -/
theorem chatMap_foldl_get (l : List Chat) (m : ChatMap) (id : String) :
    (l.foldl (fun m c => m.put c.ID c) m).get id =
      match l.reverse.find? (fun c => c.ID = id) with
      | some c => some c
      | none => m.get id := by
  induction l generalizing m with
  | nil => simp
  | cons c rest ih =>
    simp only [List.foldl_cons, List.reverse_cons, List.find?_append]
    rw [ih]
    cases hf : rest.reverse.find? (fun c => c.ID = id) with
    | some d => simp
    | none =>
      simp only [Option.none_orElse]
      rw [chatMap_get_put]
      by_cases hc : c.ID = id
      · simp [hc]
      · rw [if_neg (fun hh => hc (Eq.symm hh))]
        simp [hc]

/-- Folding map writes preserves distinctness of the key list. -/
theorem chatMap_foldl_keys_nodup (l : List Chat) (m : ChatMap)
    (h : (m.map Prod.fst).Nodup) :
    ((l.foldl (fun m c => m.put c.ID c) m).map Prod.fst).Nodup := by
  induction l generalizing m with
  | nil => simpa using h
  | cons c rest ih =>
    simp only [List.foldl_cons]
    apply ih
    rw [chatMap_keys_put]
    split
    · exact h
    · rename_i hnotmem
      rw [List.nodup_append]
      refine ⟨h, List.nodup_singleton _, ?_⟩
      intro a ha hb
      rw [List.mem_singleton] at hb
      subst hb
      exact hnotmem ha

/-- The keys of the folded map are the initial keys plus the chat ids. -/
theorem chatMap_foldl_keys_mem (l : List Chat) (m : ChatMap) (id : String) :
    id ∈ (l.foldl (fun m c => m.put c.ID c) m).map Prod.fst ↔
      id ∈ m.map Prod.fst ∨ id ∈ l.map (fun c => c.ID) := by
  induction l generalizing m with
  | nil => simp
  | cons c rest ih =>
    simp only [List.foldl_cons]
    rw [ih, chatMap_keys_put]
    split
    · rename_i hmem
      simp only [List.map_cons, List.mem_cons]
      constructor
      · rintro (hh | hh)
        · exact Or.inl hh
        · exact Or.inr (Or.inr hh)
      · rintro (hh | hh | hh)
        · exact Or.inl hh
        · exact Or.inl (hh ▸ hmem)
        · exact Or.inr hh
    · simp only [List.mem_append, List.mem_singleton, List.map_cons, List.mem_cons]
      tauto

/-- A completion task never changes the chat's correlation id. -/
theorem completeChatTask_ID (oracle : ChatOracle) (sel : Selection) (c : Chat) :
    (completeChatTask oracle sel c).ID = c.ID := by
  unfold completeChatTask
  cases oracle c.Request with
  | error e => rfl
  | ok resp =>
    cases hfc : resp.FirstMessageContent with
    | error e => simp [hfc]
    | ok text => simp [hfc]

/-- C9: the batch executor's result map has distinct keys which are exactly
the chat ids of the batch, its size is the number of distinct ids (so two
chats sharing an id leave a single surviving entry, as the concrete
two-chats-one-id conjunct shows), and each id maps to the completed result
of the last chat in channel order bearing that id. -/
theorem completeChatBatch_distinct_ids_spec (oracle : ChatOracle) (sel : Selection)
    (chats : List Chat) :
    ((CompleteChatBatch oracle sel chats).map Prod.fst).Nodup
  ∧ (∀ id, id ∈ (CompleteChatBatch oracle sel chats).map Prod.fst ↔
      id ∈ chats.map (fun c => c.ID))
  ∧ (CompleteChatBatch oracle sel chats).length = (chats.map (fun c => c.ID)).dedup.length
  ∧ (∀ id, (CompleteChatBatch oracle sel chats).get id =
      (chats.map (completeChatTask oracle sel)).reverse.find? (fun c => c.ID = id))
  ∧ (CompleteChatBatch (fun _ => .error "boom") "none"
      [{ ID := "dup" }, { ID := "dup" }]).length = 1 := by
  have hids : (chats.map (completeChatTask oracle sel)).map (fun c => c.ID) =
      chats.map (fun c => c.ID) := by
    rw [List.map_map]
    exact List.map_congr_left (fun c _ => completeChatTask_ID oracle sel c)
  have hnodup : ((CompleteChatBatch oracle sel chats).map Prod.fst).Nodup :=
    chatMap_foldl_keys_nodup _ [] (by simp)
  have hmem : ∀ id, id ∈ (CompleteChatBatch oracle sel chats).map Prod.fst ↔
      id ∈ chats.map (fun c => c.ID) := by
    intro id
    unfold CompleteChatBatch
    rw [chatMap_foldl_keys_mem, hids]
    simp
  refine ⟨hnodup, hmem, ?_, ?_, rfl⟩
  · have h1 : ((CompleteChatBatch oracle sel chats).map Prod.fst).toFinset =
        (chats.map (fun c => c.ID)).toFinset := by
      apply Finset.ext
      intro id
      simp only [List.mem_toFinset]
      exact hmem id
    have h2 := List.toFinset_card_of_nodup hnodup
    rw [← List.length_map (CompleteChatBatch oracle sel chats) Prod.fst, ← h2, h1,
      List.card_toFinset]
  · intro id
    unfold CompleteChatBatch
    rw [chatMap_foldl_get]
    cases hf : (chats.map (completeChatTask oracle sel)).reverse.find?
        (fun c => c.ID = id) with
    | some c => rfl
    | none => rfl

end ChatMapTheorems

section RetryTheorems

open psy cli

/-- A completion task never changes the chat's request. -/
theorem completeChatTask_Request (oracle : ChatOracle) (sel : Selection) (c : Chat) :
    (completeChatTask oracle sel c).Request = c.Request := by
  unfold completeChatTask
  cases oracle c.Request with
  | error e => rfl
  | ok resp =>
    cases hfc : resp.FirstMessageContent with
    | error e => simp [hfc]
    | ok text => simp [hfc]

/-- A task whose remote call succeeds records the response and clears the
error message. -/
theorem completeChatTask_ok (oracle : ChatOracle) (sel : Selection) (c : Chat)
    (resp : openai.ChatResponse) (h : oracle c.Request = .ok resp) :
    (completeChatTask oracle sel c).ErrMsg = ""
  ∧ (completeChatTask oracle sel c).Response = resp := by
  unfold completeChatTask
  rw [h]
  cases hfc : resp.FirstMessageContent with
  | error e => simp [hfc]
  | ok text => simp [hfc]

/-- Chunking never loses, duplicates or reorders items. -/
theorem batch_join {α : Type} (items : List α) (bs : ℤ) :
    (Batch items bs).flatten = items := by
  have key : ∀ (l : List α) (acc1 : List (List α)) (acc2 : List α),
      (l.foldl
        (fun (acc : List (List α) × List α) item =>
          let b := acc.2 ++ [item]
          if (b.length : ℤ) = bs then (acc.1 ++ [b], []) else (acc.1, b))
        (acc1, acc2)).1.flatten ++
      (l.foldl
        (fun (acc : List (List α) × List α) item =>
          let b := acc.2 ++ [item]
          if (b.length : ℤ) = bs then (acc.1 ++ [b], []) else (acc.1, b))
        (acc1, acc2)).2 = acc1.flatten ++ acc2 ++ l := by
    intro l
    induction l with
    | nil => intro acc1 acc2; simp
    | cons x xs ih =>
      intro acc1 acc2
      simp only [List.foldl_cons]
      split
      · rw [ih]
        simp
      · rw [ih]
        simp
  rcases hfold : (items.foldl
    (fun (acc : List (List α) × List α) item =>
      let b := acc.2 ++ [item]
      if (b.length : ℤ) = bs then (acc.1 ++ [b], []) else (acc.1, b))
    ([], [])) with ⟨b1, b2⟩
  have hk := key items [] []
  rw [hfold] at hk
  simp only [List.flatten_nil, List.nil_append] at hk
  have hb : Batch items bs = if 0 < b2.length then b1 ++ [b2] else b1 := by
    unfold Batch
    rw [hfold]
  rw [hb]
  split
  · simpa using hk
  · rename_i hlen
    have : b2 = [] := by
      cases b2 with
      | nil => rfl
      | cons y ys => simp at hlen
    rw [this] at hk
    simpa using hk

/-- Folding map writes over chats with pairwise-distinct ids, none already
present, just appends the keyed entries in order. -/
theorem buildMap_eq_append (l : List Chat) (m : ChatMap)
    (hnodup : (l.map (fun c => c.ID)).Nodup)
    (hdisj : ∀ c ∈ l, c.ID ∉ m.map Prod.fst) :
    l.foldl (fun m c => m.put c.ID c) m = m ++ l.map (fun c => (c.ID, c)) := by
  induction l generalizing m with
  | nil => simp
  | cons c rest ih =>
    simp only [List.foldl_cons, List.map_cons]
    have hput : m.put c.ID c = m ++ [(c.ID, c)] := by
      unfold ChatMap.put
      rw [if_neg]
      intro hany
      rw [List.any_eq_true] at hany
      obtain ⟨e, hmem, he⟩ := hany
      simp only [decide_eq_true_eq] at he
      exact hdisj c (List.mem_cons_self c rest) (he ▸ List.mem_map_of_mem Prod.fst hmem)
    have hcomp : (∀ x ∈ rest, ¬x.ID = c.ID) ∧ (rest.map (fun c => c.ID)).Nodup := by
      simpa using hnodup
    rw [hput, ih]
    · simp
    · exact hcomp.2
    · intro d hd
      simp only [List.map_append, List.mem_append]
      rintro (hh | hh)
      · exact hdisj d (List.mem_cons_of_mem c hd) hh
      · simp only [List.map_cons, List.map_nil, List.mem_singleton] at hh
        exact hcomp.1 d hd hh

/-- On a batch with pairwise-distinct ids the executor's map is exactly the
completed chats keyed by their ids, in order. -/
theorem completeChatBatch_entries (oracle : ChatOracle) (sel : Selection) (batch : List Chat)
    (hnodup : (batch.map (fun c => c.ID)).Nodup) :
    CompleteChatBatch oracle sel batch =
      (batch.map (completeChatTask oracle sel)).map (fun c => (c.ID, c)) := by
  unfold CompleteChatBatch
  rw [buildMap_eq_append]
  · simp
  · rw [List.map_map]
    have : ((fun c => c.ID) ∘ completeChatTask oracle sel) = fun (c : Chat) => c.ID := by
      funext c
      exact completeChatTask_ID oracle sel c
    rw [this]
    exact hnodup
  · intro c _
    simp

/-- When exactly one element satisfies the predicate, the scan finds it. -/
theorem find?_unique {α : Type} (p : α → Bool) (x : α) (l : List α)
    (hmem : x ∈ l) (hx : p x = true) (huniq : ∀ y ∈ l, p y = true → y = x) :
    l.find? p = some x := by
  induction l with
  | nil => simp at hmem
  | cons a rest ih =>
    rw [List.find?_cons]
    by_cases hpa : p a = true
    · rw [hpa]
      exact congrArg some (huniq a (List.mem_cons_self a rest) hpa)
    · rw [Bool.not_eq_true] at hpa
      rw [hpa]
      have hxr : x ∈ rest := by
        rcases List.mem_cons.mp hmem with hh | hh
        · rw [hh] at hx
          rw [hx] at hpa
          exact absurd hpa (by simp)
        · exact hh
      exact ih hxr (fun y hy hp => huniq y (List.mem_cons_of_mem a hy) hp)

/-- The first pass of `parallel` collects, across all sub-batches in order,
precisely the completed chats that failed. -/
theorem parallel_fold_retries (o1 : ChatOracle) (sel : Selection)
    (bl : List (List Chat)) (acc : ChatMap × List Chat)
    (hnodup : (bl.flatten.map (fun c => c.ID)).Nodup) :
    (bl.foldl
      (fun (acc : ChatMap × List Chat) batch =>
        let r := CompleteChatBatch o1 sel batch
        (cli.mergeChatMap acc.1 r,
          acc.2 ++ (r.map (fun e => e.2)).filter (fun c => c.ErrMsg ≠ "")))
      acc).2 =
      acc.2 ++ ((bl.flatten.map (completeChatTask o1 sel)).filter
        (fun c => c.ErrMsg ≠ "")) := by
  induction bl generalizing acc with
  | nil => simp
  | cons batch rest ih =>
    simp only [List.foldl_cons, List.flatten_cons, List.map_append, List.filter_append] at *
    have hbn : (batch.map (fun c => c.ID)).Nodup :=
      (List.nodup_append.mp hnodup).1
    have hrn : (rest.flatten.map (fun c => c.ID)).Nodup :=
      (List.nodup_append.mp hnodup).2.1
    rw [ih _ hrn]
    rw [completeChatBatch_entries o1 sel batch hbn]
    simp only [List.map_map]
    rw [show ((fun e : String × Chat => e.2) ∘ ((fun c : Chat => (c.ID, c)) ∘
      completeChatTask o1 sel)) = completeChatTask o1 sel from rfl]
    simp [List.append_assoc]

/-- Merging a result map into the accumulated map is folding keyed writes
over its entries. -/
theorem mergeChatMap_eq_foldl (res : ChatMap) (r : ChatMap) :
    cli.mergeChatMap res r = (r.map Prod.snd).foldl (fun m c => m.put c.ID c) res := by
  unfold cli.mergeChatMap
  rw [List.foldl_map]

/-- C6: single bulk retry pass — when the chats carry pairwise-distinct ids
and every chat that fails on the first pass succeeds on the retry call, the
final merged map holds, for each such chat, the retried outcome under its
id: no error message, and the retry oracle's response (with its scores, by
the task equation), not the original failure. -/
theorem parallel_retry_pass_spec (o1 o2 : ChatOracle) (sel : Selection) (bs : ℤ)
    (chats : List Chat) (hnodup : (chats.map (fun c => c.ID)).Nodup)
    (hretry : ∀ c ∈ chats, (completeChatTask o1 sel c).ErrMsg ≠ "" →
      ∃ resp, o2 c.Request = Except.ok resp) :
    ∀ c ∈ chats, (completeChatTask o1 sel c).ErrMsg ≠ "" →
      (parallelResults o1 o2 sel bs chats).get c.ID
          = some (completeChatTask o2 sel (completeChatTask o1 sel c))
      ∧ (completeChatTask o2 sel (completeChatTask o1 sel c)).ErrMsg = ""
      ∧ ∃ resp, o2 c.Request = Except.ok resp ∧
          (completeChatTask o2 sel (completeChatTask o1 sel c)).Response = resp := by
  intro c hc hfail
  obtain ⟨resp, hresp⟩ := hretry c hc hfail
  have hreq : (completeChatTask o1 sel c).Request = c.Request :=
    completeChatTask_Request o1 sel c
  have hok := completeChatTask_ok o2 sel (completeChatTask o1 sel c) resp
    (by rw [hreq]; exact hresp)
  refine ⟨?_, hok.1, resp, hresp, hok.2⟩
  set F := completeChatTask o1 sel with hF
  set G := completeChatTask o2 sel with hG
  set retries := ((chats.map F).filter (fun c => c.ErrMsg ≠ "")) with hretries
  have hflat : ((Batch chats bs).flatten.map (fun c => c.ID)).Nodup := by
    rw [batch_join]
    exact hnodup
  rcases hfold : ((Batch chats bs).foldl
    (fun (acc : ChatMap × List Chat) batch =>
      let r := CompleteChatBatch o1 sel batch
      (cli.mergeChatMap acc.1 r,
        acc.2 ++ (r.map (fun e => e.2)).filter (fun c => c.ErrMsg ≠ "")))
    ([], [])) with ⟨res1, rets⟩
  have hrets : rets = retries := by
    have hr := parallel_fold_retries o1 sel (Batch chats bs) ([], []) hflat
    rw [hfold] at hr
    simp only at hr
    rw [hr, batch_join]
    simp only [List.nil_append, hretries, hF]
  have hpr : cli.parallelResults o1 o2 sel bs chats =
      if 0 < rets.length then cli.mergeChatMap res1 (CompleteChatBatch o2 sel rets)
      else res1 := by
    unfold cli.parallelResults
    rw [hfold]
  have hFcmem : F c ∈ retries := by
    rw [hretries]
    exact List.mem_filter.mpr ⟨List.mem_map_of_mem F hc, by simpa using hfail⟩
  have hlen : 0 < rets.length := by
    rw [hrets]
    exact List.length_pos.mpr (fun hnil => by rw [hnil] at hFcmem; simp at hFcmem)
  rw [hpr, if_pos hlen, hrets]
  have hretnodup : (retries.map (fun c => c.ID)).Nodup := by
    have hsub : (retries.map (fun c => c.ID)).Sublist ((chats.map F).map (fun c => c.ID)) :=
      List.Sublist.map _ (List.filter_sublist _)
    have hFids : (chats.map F).map (fun c => c.ID) = chats.map (fun c => c.ID) := by
      rw [List.map_map]
      exact List.map_congr_left (fun d _ => completeChatTask_ID o1 sel d)
    exact List.Nodup.sublist (hFids ▸ hsub) hnodup
  rw [completeChatBatch_entries o2 sel retries hretnodup,
    mergeChatMap_eq_foldl, List.map_map]
  rw [show (Prod.snd ∘ fun c : Chat => (c.ID, c)) = id from rfl, List.map_id]
  rw [chatMap_foldl_get]
  have hfind : (retries.map G).reverse.find? (fun d => d.ID = c.ID) = some (G (F c)) := by
    apply find?_unique
    · rw [List.mem_reverse]
      exact List.mem_map_of_mem G hFcmem
    · rw [hG, hF]
      simp [completeChatTask_ID]
    · intro y hy hyid
      rw [List.mem_reverse] at hy
      obtain ⟨r, hrmem, hry⟩ := List.mem_map.mp hy
      obtain ⟨d, hdmem, hdr⟩ := List.mem_map.mp (List.mem_of_mem_filter (hretries ▸ hrmem))
      have hyid2 : d.ID = c.ID := by
        rw [← hry, ← hdr] at hyid
        rw [hG, hF] at hyid
        simpa [completeChatTask_ID] using hyid
      have hdc : d = c := by
        have hinj := List.inj_on_of_nodup_map hnodup
        exact hinj hdmem hc hyid2
      rw [← hry, ← hdr, hdc]
  rw [hfind]

/-- C6 (witness): one chat whose first call fails and whose retry succeeds;
the merged map holds the retried outcome. -/
theorem parallel_retry_pass_spec_witness :
    (cli.parallelResults (fun _ => Except.error "boom")
      (fun _ => Except.ok { Choices := [{ Message := { Role := "assistant", Content := "5" } }] })
      "last" 20 [{ ID := "a", Request := { Model := "m" } }]).get "a"
    = some (completeChatTask
        (fun _ => Except.ok { Choices := [{ Message := { Role := "assistant", Content := "5" } }] })
        "last"
        (completeChatTask (fun _ => Except.error "boom") "last"
          { ID := "a", Request := { Model := "m" } })) := by
  have h := parallel_retry_pass_spec (fun _ => Except.error "boom")
    (fun _ => Except.ok { Choices := [{ Message := { Role := "assistant", Content := "5" } }] })
    "last" 20 [{ ID := "a", Request := { Model := "m" } }]
    (by simp)
    (fun c hc hfail => ⟨{ Choices := [{ Message := { Role := "assistant", Content := "5" } }] }, rfl⟩)
    { ID := "a", Request := { Model := "m" } }
    (List.mem_singleton.mpr rfl)
    (by decide)
  exact h.1

end RetryTheorems

section LookupAbortTheorems

open psy cli

/-- The unknown-question accumulator never shrinks. -/
theorem unknown_fold_length_mono (questions : List (String × String)) (qidF : String)
    (records : List Record) (acc : List String) :
    acc.length ≤ (records.foldl
      (fun acc (a : Record) =>
        let qid := a.get qidF
        if (lookupStr questions qid).isNone then acc ++ [qid] else acc)
      acc).length := by
  induction records generalizing acc with
  | nil => simp
  | cons a rest ih =>
    simp only [List.foldl_cons]
    split
    · exact le_trans (by simp) (ih (acc ++ [Record.get a qidF]))
    · exact ih acc

/-- A row whose key misses the side table makes the unknown-question list
non-empty. -/
theorem unknown_fold_pos (questions : List (String × String)) (qidF : String)
    (records : List Record) (acc : List String)
    (h : ∃ a ∈ records, lookupStr questions (Record.get a qidF) = none) :
    0 < (records.foldl
      (fun acc (a : Record) =>
        let qid := a.get qidF
        if (lookupStr questions qid).isNone then acc ++ [qid] else acc)
      acc).length := by
  induction records generalizing acc with
  | nil => simp at h
  | cons a rest ih =>
    simp only [List.foldl_cons]
    rcases h with ⟨b, hb, hnone⟩
    rcases List.mem_cons.mp hb with hh | hh
    · subst hh
      rw [if_pos (by simp [hnone])]
      calc 0 < (acc ++ [Record.get b qidF]).length := by simp
        _ ≤ _ := unknown_fold_length_mono questions qidF rest _
    · split
      · exact ih _ ⟨b, hh, hnone⟩
      · exact ih _ ⟨b, hh, hnone⟩

/-- Request building cannot succeed while a row-keyed question lookup has an
unresolvable row: the all-rows validation precedes unit construction. -/
theorem generateChatRequests_ok_no_unknown
    (env : ChatCommandEnv) (fs : String → Option String) (rnd : ℕ) (ids : ℕ → String)
    (p : ChatParameters) (questions : List (String × String)) (content : String)
    (answers : Table) (v : List Chat × Table)
    (hqf : p.QuestionFile ≠ "")
    (hqid : p.QuestionID.data.contains '=' = false)
    (hqs : ReadCSVFields fs p.QuestionFile p.QuestionID p.QuestionField = .ok questions)
    (hfs : fs p.AnswerFile = some content)
    (hparse : ReadCSVTable p.AnswerFile content = .ok answers)
    (hrow : ∃ a ∈ answers.Records, lookupStr questions (a.get p.QuestionID) = none)
    (hres : generateChatRequests env fs rnd ids p = .ok v) : False := by
  unfold generateChatRequests at hres
  split at hres
  · exact Except.noConfusion hres
  split at hres
  · exact Except.noConfusion hres
  split at hres
  · exact Except.noConfusion hres
  rename_i system hsys
  split at hres
  · exact Except.noConfusion hres
  rename_i template htem
  split at hres
  · exact Except.noConfusion hres
  rename_i qtrip hqqs
  rw [hqid] at hqqs
  simp only [Bool.false_eq_true, if_false] at hqqs
  rw [hqs] at hqqs
  cases hqqs
  split at hres
  · exact Except.noConfusion hres
  rename_i answers0 hans
  rw [hfs] at hans
  simp only [hparse] at hans
  cases hans
  split at hres
  · exact Except.noConfusion hres
  split at hres
  · exact Except.noConfusion hres
  rename_i u hu
  simp only [if_true] at hu
  split at hu
  · exact Except.noConfusion hu
  split at hu
  · exact Except.noConfusion hu
  rename_i hlen
  exact absurd (unknown_fold_pos questions p.QuestionID answers.Records [] hrow)
    (by simpa using hlen)

/-- C3: when row-keyed question lookup is requested and some row's key has
no match in the side questions table, request building returns an error —
so zero completion units exist — and the `parallel` command issues zero
remote completion calls. -/
theorem lookup_miss_aborts_before_dispatch
    (env : ChatCommandEnv) (fs : String → Option String) (rnd : ℕ) (ids : ℕ → String)
    (p : ChatParameters) (questions : List (String × String)) (content : String)
    (answers : Table)
    (hqf : p.QuestionFile ≠ "")
    (hqid : p.QuestionID.data.contains '=' = false)
    (hqs : ReadCSVFields fs p.QuestionFile p.QuestionID p.QuestionField = .ok questions)
    (hfs : fs p.AnswerFile = some content)
    (hparse : ReadCSVTable p.AnswerFile content = .ok answers)
    (hrow : ∃ a ∈ answers.Records, lookupStr questions (a.get p.QuestionID) = none) :
    (∃ e, generateChatRequests env fs rnd ids p = .error e)
  ∧ ∀ (o1 : ChatOracle) (sel : Selection) (bs : ℤ),
      parallelDispatchCount env fs rnd ids o1 sel bs p = 0 := by
  have hmain : ∃ e, generateChatRequests env fs rnd ids p = .error e := by
    cases hres : generateChatRequests env fs rnd ids p with
    | error e => exact ⟨e, rfl⟩
    | ok v =>
      exact absurd hres (fun hres => generateChatRequests_ok_no_unknown env fs rnd ids p
        questions content answers v hqf hqid hqs hfs hparse hrow hres)
  refine ⟨hmain, ?_⟩
  intro o1 sel bs
  obtain ⟨e, he⟩ := hmain
  unfold parallelDispatchCount
  rw [he]

/-- C3 (witness): a one-row answer table whose key `2` is absent from the
side questions table; request building errors and zero chats are
dispatched. -/
theorem lookup_miss_aborts_witness :
    (∃ e, generateChatRequests ⟨fun _ => true, "gpt-4o", 0, 0, ""⟩
      (fun path =>
        if path = "ans.csv" then some "qid,answer\n2,hello\n"
        else if path = "q.csv" then some "qid,question\n1,Why\n"
        else if path = "prompt.txt" then some "{{question}} {{answer}}" else none)
      0 (fun _ => "x")
      { PromptFile := "prompt.txt", QuestionFile := "q.csv", QuestionField := "question",
        QuestionID := "qid", AnswerFile := "ans.csv", AnswerField := "answer",
        ScoreSelect := "last", Model := "gpt-4o" } = .error e)
  ∧ parallelDispatchCount ⟨fun _ => true, "gpt-4o", 0, 0, ""⟩
      (fun path =>
        if path = "ans.csv" then some "qid,answer\n2,hello\n"
        else if path = "q.csv" then some "qid,question\n1,Why\n"
        else if path = "prompt.txt" then some "{{question}} {{answer}}" else none)
      0 (fun _ => "x") (fun _ => Except.error "e") "last" 20
      { PromptFile := "prompt.txt", QuestionFile := "q.csv", QuestionField := "question",
        QuestionID := "qid", AnswerFile := "ans.csv", AnswerField := "answer",
        ScoreSelect := "last", Model := "gpt-4o" } = 0 := by
  have h := lookup_miss_aborts_before_dispatch
    ⟨fun _ => true, "gpt-4o", 0, 0, ""⟩
    (fun path =>
      if path = "ans.csv" then some "qid,answer\n2,hello\n"
      else if path = "q.csv" then some "qid,question\n1,Why\n"
      else if path = "prompt.txt" then some "{{question}} {{answer}}" else none)
    0 (fun _ => "x")
    { PromptFile := "prompt.txt", QuestionFile := "q.csv", QuestionField := "question",
      QuestionID := "qid", AnswerFile := "ans.csv", AnswerField := "answer",
      ScoreSelect := "last", Model := "gpt-4o" }
    [("1", "Why")] "qid,answer\n2,hello\n"
    ⟨["qid", "answer"], [[("qid", "2"), ("answer", "hello")]]⟩
    (by decide) (by decide) rfl rfl rfl
    ⟨[("qid", "2"), ("answer", "hello")], by simp, rfl⟩
  exact ⟨h.1, h.2 (fun _ => Except.error "e") "last" 20⟩

end LookupAbortTheorems

section RequestBuilderTheorems

open psy cli gostr

/-- A Go map write on a row record: the written key reads the value, other
keys are unchanged. -/
theorem record_get_set (r : Record) (n v : String) (n2 : String) :
    (r.set n v).get n2 = if n2 = n then v else r.get n2 := by
  unfold Record.set Record.get
  by_cases h : r.any (fun e => e.1 = n) = true
  · rw [if_pos h, List.find?_map]
    by_cases hk : n2 = n
    · subst hk
      have hp : ((fun e => decide (e.1 = n2)) ∘ (fun e : String × String =>
          if e.1 = n2 then (n2, v) else e)) = fun e => decide (e.1 = n2) := by
        funext e
        by_cases he : e.1 = n2 <;> simp [he]
      rw [hp]
      rw [List.any_eq_true] at h
      obtain ⟨e0, hmem, he0⟩ := h
      simp only [decide_eq_true_eq] at he0
      obtain ⟨e1, hfind⟩ : ∃ e1, r.find? (fun e => decide (e.1 = n2)) = some e1 := by
        cases hf : r.find? (fun e => decide (e.1 = n2)) with
        | none =>
          rw [List.find?_eq_none] at hf
          exact absurd (by simpa using he0) (by simpa using hf e0 hmem)
        | some e1 => exact ⟨e1, rfl⟩
      have he1 : e1.1 = n2 := by simpa using List.find?_some hfind
      rw [hfind]
      simp [he1]
    · have hp : ((fun e => decide (e.1 = n2)) ∘ (fun e : String × String =>
          if e.1 = n then (n, v) else e)) = fun e => decide (e.1 = n2) := by
        funext e
        by_cases he : e.1 = n
        · simp [he]
        · simp [he]
      rw [hp, if_neg hk]
      cases hf : r.find? (fun e => decide (e.1 = n2)) with
      | none => simp
      | some e1 =>
        have he1 : e1.1 = n2 := by simpa using List.find?_some hf
        have : e1.1 ≠ n := he1 ▸ hk
        simp [this]
  · rw [if_neg h, List.find?_append]
    by_cases hk : n2 = n
    · subst hk
      have hnone : r.find? (fun e => decide (e.1 = n2)) = none := by
        rw [List.find?_eq_none]
        intro e hmem
        simp only [decide_eq_true_eq]
        intro he
        exact h (List.any_eq_true.mpr ⟨e, hmem, by simpa using he⟩)
      rw [hnone]
      simp
    · rw [if_neg hk]
      cases hf : r.find? (fun e => decide (e.1 = n2)) with
      | none => simp [hf, show ¬(n = n2) from fun hh => hk (Eq.symm hh)]
      | some e1 => simp [hf]

/-- `NewChat` uses the given id as the chat id. -/
theorem newChat_ID (id system prompt model : String) (temp : ℚ) (mt : ℤ) :
    (NewChat id system prompt model temp mt).ID = id := rfl

/-- `AddField` never touches the records. -/
theorem addField_records (t : Table) (n : String) : (t.AddField n).Records = t.Records := by
  unfold Table.AddField
  split <;> rfl

/-- After `AddField` the field is present. -/
theorem hasField_addField (t : Table) (n : String) : (t.AddField n).HasField n = true := by
  unfold Table.AddField
  split
  · assumption
  · simp [Table.HasField, List.any_append]

/-- The per-row loop of `generateChatRequests` over an injective id stream:
row and unit counts, the blank-answer/empty-chatID correspondence per row,
distinctness of the minted ids, the unit-id/row-chatID bijection, and
preservation of all other row fields. -/
theorem genLoop_spec (env : ChatCommandEnv) (ids : ℕ → String) (p : ChatParameters)
    (system template question : String) (questions : List (String × String)) (lookupQ : Bool)
    (hinj : Function.Injective ids) (hne : ∀ n, ids n ≠ "") :
    ∀ (recs : List Record) (k : ℕ),
      (genLoop env ids p system template question questions lookupQ recs k).2.length
        = recs.length
    ∧ (genLoop env ids p system template question questions lookupQ recs k).1.length
        = recs.length -
          (recs.filter (fun a => CleanText (a.get p.AnswerField) = "")).length
    ∧ (∀ c ∈ (genLoop env ids p system template question questions lookupQ recs k).1,
        ∃ j, k ≤ j ∧ c.ID = ids j)
    ∧ ((genLoop env ids p system template question questions lookupQ recs k).1.map
        (fun c => c.ID)).Nodup
    ∧ (∀ i, i < recs.length →
        (CleanText ((recs.getD i []).get p.AnswerField) = "" ↔
          ((genLoop env ids p system template question questions lookupQ recs k).2.getD i
            []).get "chatID" = ""))
    ∧ (∀ c ∈ (genLoop env ids p system template question questions lookupQ recs k).1,
        ∃ i, i < recs.length ∧
          ((genLoop env ids p system template question questions lookupQ recs k).2.getD i
            []).get "chatID" = c.ID)
    ∧ (∀ i, i < recs.length →
        ((genLoop env ids p system template question questions lookupQ recs k).2.getD i
          []).get "chatID" ≠ "" →
        ∃ c ∈ (genLoop env ids p system template question questions lookupQ recs k).1,
          c.ID = ((genLoop env ids p system template question questions lookupQ
            recs k).2.getD i []).get "chatID")
    ∧ (∀ i, i < recs.length → ∀ name, name ≠ "chatID" →
        ((genLoop env ids p system template question questions lookupQ recs k).2.getD i
          []).get name = (recs.getD i []).get name) := by
  intro recs
  induction recs with
  | nil =>
    intro k
    refine ⟨rfl, rfl, ?_, ?_, ?_, ?_, ?_, ?_⟩ <;> simp [genLoop]
  | cons a rest ih =>
    intro k
    by_cases hblank : CleanText (a.get p.AnswerField) = ""
    · obtain ⟨ihA, ihB, ihC, ihD, ihE, ihF, ihG, ihH⟩ := ih k
      simp only [genLoop]
      rw [if_pos hblank]
      simp only []
      have hfl := List.length_filter_le
        (fun a => decide (CleanText (Record.get a p.AnswerField) = "")) rest
      refine ⟨by simpa using ihA, ?_, ihC, ihD, ?_, ?_, ?_, ?_⟩
      · simp only [List.length_cons, List.filter_cons]
        rw [if_pos (show decide (CleanText (Record.get a p.AnswerField) = "") = true by
          simp [hblank])]
        simp only [List.length_cons]
        rw [ihB]
        omega
      · intro i hi
        cases i with
        | zero =>
          simp only [List.getD_cons_zero]
          rw [record_get_set]
          simp [hblank]
        | succ i2 =>
          simp only [List.getD_cons_succ]
          exact ihE i2 (by simpa using hi)
      · intro c hc
        obtain ⟨i, hi, hid⟩ := ihF c hc
        exact ⟨i + 1, by simpa using hi, by simpa using hid⟩
      · intro i hi hne2
        cases i with
        | zero =>
          simp only [List.getD_cons_zero] at hne2
          rw [record_get_set] at hne2
          simp at hne2
        | succ i2 =>
          simp only [List.getD_cons_succ] at hne2 ⊢
          exact ihG i2 (by simpa using hi) hne2
      · intro i hi name hname
        cases i with
        | zero =>
          simp only [List.getD_cons_zero]
          rw [record_get_set, if_neg hname]
        | succ i2 =>
          simp only [List.getD_cons_succ]
          exact ihH i2 (by simpa using hi) name hname
    · obtain ⟨ihA, ihB, ihC, ihD, ihE, ihF, ihG, ihH⟩ := ih (k + 1)
      simp only [genLoop]
      rw [if_neg hblank]
      simp only []
      have hfl := List.length_filter_le
        (fun a => decide (CleanText (Record.get a p.AnswerField) = "")) rest
      refine ⟨by simpa using ihA, ?_, ?_, ?_, ?_, ?_, ?_, ?_⟩
      · simp only [List.length_cons, List.filter_cons]
        rw [if_neg (show ¬(decide (CleanText (Record.get a p.AnswerField) = "") = true) by
          simp [hblank])]
        rw [ihB]
        omega
      · intro c hc
        rcases List.mem_cons.mp hc with hh | hh
        · exact ⟨k, le_refl k, by rw [hh]; exact newChat_ID _ _ _ _ _ _⟩
        · obtain ⟨j, hj, hid⟩ := ihC c hh
          exact ⟨j, by omega, hid⟩
      · simp only [List.map_cons, List.nodup_cons]
        refine ⟨?_, ihD⟩
        intro hmem
        obtain ⟨c, hc, hcid⟩ := List.mem_map.mp hmem
        obtain ⟨j, hj, hid⟩ := ihC c hc
        rw [hid] at hcid
        have := hinj hcid.symm
        omega
      · intro i hi
        cases i with
        | zero =>
          simp only [List.getD_cons_zero]
          rw [record_get_set]
          simp [hblank, hne k]
        | succ i2 =>
          simp only [List.getD_cons_succ]
          exact ihE i2 (by simpa using hi)
      · intro c hc
        rcases List.mem_cons.mp hc with hh | hh
        · refine ⟨0, by simp, ?_⟩
          simp only [List.getD_cons_zero]
          rw [record_get_set]
          simp [hh, newChat_ID]
        · obtain ⟨i, hi, hid⟩ := ihF c hh
          exact ⟨i + 1, by simpa using hi, by simpa using hid⟩
      · intro i hi hne2
        cases i with
        | zero =>
          refine ⟨_, List.mem_cons_self _ _, ?_⟩
          simp only [List.getD_cons_zero]
          rw [record_get_set]
          simp [newChat_ID]
        | succ i2 =>
          simp only [List.getD_cons_succ] at hne2 ⊢
          obtain ⟨c, hc, hcid⟩ := ihG i2 (by simpa using hi) hne2
          exact ⟨c, List.mem_cons_of_mem _ hc, hcid⟩
      · intro i hi name hname
        cases i with
        | zero =>
          simp only [List.getD_cons_zero]
          rw [record_get_set, if_neg hname]
        | succ i2 =>
          simp only [List.getD_cons_succ]
          exact ihH i2 (by simpa using hi) name hname

/-- C2: building requests over a table of N rows of which M have a
whitespace-normalized empty answer yields exactly N − M units; all N rows
remain, the M blank rows carry an empty `chatID`, every other row carries a
fresh id that is the id of exactly one unit (ids pairwise distinct, each
unit's id on exactly one row), and no other field of any row changes. -/
theorem generateChatRequests_blank_rows_spec
    (env : ChatCommandEnv) (fs : String → Option String) (rnd : ℕ) (ids : ℕ → String)
    (p : ChatParameters) (content : String) (answers : Table)
    (chats : List Chat) (t2 : Table)
    (hinj : Function.Injective ids) (hne : ∀ n, ids n ≠ "")
    (hsel : p.AnswerID = "")
    (hfs : fs p.AnswerFile = some content)
    (hparse : ReadCSVTable p.AnswerFile content = .ok answers)
    (hres : generateChatRequests env fs rnd ids p = .ok (chats, t2)) :
    t2.HasField "chatID" = true
  ∧ t2.Records.length = answers.Records.length
  ∧ chats.length = answers.Records.length -
      (answers.Records.filter (fun a => CleanText (a.get p.AnswerField) = "")).length
  ∧ (∀ i, i < answers.Records.length →
      (CleanText ((answers.Records.getD i []).get p.AnswerField) = "" ↔
        (t2.Records.getD i []).get "chatID" = ""))
  ∧ (chats.map (fun c => c.ID)).Nodup
  ∧ (∀ c ∈ chats, ∃ i, i < answers.Records.length ∧
      (t2.Records.getD i []).get "chatID" = c.ID)
  ∧ (∀ i, i < answers.Records.length → (t2.Records.getD i []).get "chatID" ≠ "" →
      ∃ c ∈ chats, c.ID = (t2.Records.getD i []).get "chatID")
  ∧ (∀ i, i < answers.Records.length → ∀ name, name ≠ "chatID" →
      (t2.Records.getD i []).get name = (answers.Records.getD i []).get name) := by
  unfold generateChatRequests at hres
  split at hres
  · exact Except.noConfusion hres
  split at hres
  · exact Except.noConfusion hres
  split at hres
  · exact Except.noConfusion hres
  rename_i system hsys
  split at hres
  · exact Except.noConfusion hres
  rename_i template htem
  split at hres
  · exact Except.noConfusion hres
  rename_i question questions lookupQ hqqs
  split at hres
  · exact Except.noConfusion hres
  rename_i answers0 hans
  rw [hfs] at hans
  simp only [hparse] at hans
  cases hans
  split at hres
  · exact Except.noConfusion hres
  split at hres
  · exact Except.noConfusion hres
  rename_i u hu
  split at hres
  · exact Except.noConfusion hres
  rename_i sel hselp
  rw [hsel] at hselp
  simp only [reduceIte] at hselp
  have hsel2 : sel = SelectedRows.all := by
    have := hselp
    simp at this
    exact this.symm
  subst hsel2
  simp only [Except.ok.injEq] at hres
  have hchats : (genLoop env ids p system template question questions lookupQ
      (answers.AddField "chatID").Records 0).1 = chats := congrArg Prod.fst hres
  have ht2 : ({ answers.AddField "chatID" with
      Records := (genLoop env ids p system template question questions lookupQ
        (answers.AddField "chatID").Records 0).2 } : Table) = t2 := congrArg Prod.snd hres
  subst hchats
  subst ht2
  rw [addField_records] at *
  have hg := genLoop_spec env ids p system template question questions lookupQ hinj hne
    answers.Records 0
  obtain ⟨hA, hB, hC, hD, hE, hF, hG, hH⟩ := hg
  refine ⟨?_, hA, hB, hE, hD, hF, hG, hH⟩
  have : ({ answers.AddField "chatID" with
      Records := (genLoop env ids p system template question questions lookupQ
        answers.Records 0).2 } : Table).HasField "chatID"
      = (answers.AddField "chatID").HasField "chatID" := rfl
  rw [this]
  exact hasField_addField answers "chatID"

/-- C2 (witness): a two-row table with one whitespace-only answer yields
one unit, keeps both rows, and blanks the second row's chatID. -/
theorem generateChatRequests_blank_rows_witness :
    (⟨["answer", "chatID"],
       [[("answer", "hello"), ("chatID", "a")], [("answer", " "), ("chatID", "")]]⟩ :
      Table).Records.length = 2
  ∧ ([NewChat "a" "" "Q: hello" "gpt-4o" 0 0].length = 1)
  ∧ (((⟨["answer", "chatID"],
       [[("answer", "hello"), ("chatID", "a")], [("answer", " "), ("chatID", "")]]⟩ :
      Table).Records.getD 1 []).get "chatID" = "") := by
  have hinj : Function.Injective (fun n => (List.replicate (n + 1) 'a').asString) := by
    intro m n h
    have h2 := congrArg String.data h
    simp only [List.asString] at h2
    have h3 := congrArg List.length h2
    simp at h3
    exact h3
  have hne : ∀ n, (List.replicate (n + 1) 'a').asString ≠ "" := by
    intro n h
    have h2 := congrArg String.data h
    simp [List.asString] at h2
  have h := generateChatRequests_blank_rows_spec
    ⟨fun _ => true, "gpt-4o", 0, 0, ""⟩
    (fun path =>
      if path = "ans.csv" then some "answer\nhello\n \n"
      else if path = "prompt.txt" then some "Q: {{answer}}" else none)
    0 (fun n => (List.replicate (n + 1) 'a').asString)
    { PromptFile := "prompt.txt", AnswerFile := "ans.csv", AnswerField := "answer",
      ScoreSelect := "last", Model := "gpt-4o" }
    "answer\nhello\n \n"
    ⟨["answer"], [[("answer", "hello")], [("answer", " ")]]⟩
    [NewChat "a" "" "Q: hello" "gpt-4o" 0 0]
    ⟨["answer", "chatID"],
      [[("answer", "hello"), ("chatID", "a")], [("answer", " "), ("chatID", "")]]⟩
    hinj hne rfl rfl rfl rfl
  exact ⟨h.2.1, rfl, by rfl⟩

end RequestBuilderTheorems

section ReconciliationTheorems

open psy cli

/-- C1 (counterexample): reconciling 3 correlation ids — a one-score
success, a two-score success, and an error — with the one-score row first
in table order: the columns are `score1`/`score2` as claimed, but the
one-score row's score does NOT appear under `score1` (which reads empty);
it was recorded under the bare `score` key, which is not an output column,
because the running maximum score count was still 1 when that row was
processed. -/
theorem processBatchResults_order_counterexample :
    let resp : List (String × openai.BatchResponseItem) :=
      [("a", { Response := { Body := { Choices :=
          [{ Message := { Role := "assistant", Content := "3" } }] } } }),
       ("b", { Response := { Body := { Choices :=
          [{ Message := { Role := "assistant", Content := "4 5" } }] } } }),
       ("c", { Error := { Code := "x", Message := "bad" } })]
    let out := processBatchResults [("score_select", "all")] resp
      ⟨["chatID"], [[("chatID", "a")], [("chatID", "b")], [("chatID", "c")]]⟩
    out.FieldNames = ["chatID", "completion", "score1", "score2"]
  ∧ (out.Records.getD 0 []).get "completion" = "3"
  ∧ ¬((out.Records.getD 0 []).get "score1" = "3.000000")
  ∧ (out.Records.getD 0 []).get "score1" = ""
  ∧ (out.Records.getD 0 []).get "score2" = ""
  ∧ (out.Records.getD 0 []).get "score" = "3.000000" := by
  exact ⟨rfl, rfl, by decide, rfl, rfl, rfl⟩

/-- C1 (amended): in the 2-successes-1-error reconciliation, completion
text lands on all three rows, the column set is `score1`/`score2` (the
maximum observed count), the two-score row populates both, the error row
gets no scores, and the one-score row's placement depends on processing
order: processed first (order A) its score goes under the bare score name
— not an output column, leaving `score1`/`score2` empty — while processed
after the two-score row (order B) it lands under `score1` with `score2`
empty. -/
theorem processBatchResults_score_columns_amended :
    let resp : List (String × openai.BatchResponseItem) :=
      [("a", { Response := { Body := { Choices :=
          [{ Message := { Role := "assistant", Content := "3" } }] } } }),
       ("b", { Response := { Body := { Choices :=
          [{ Message := { Role := "assistant", Content := "4 5" } }] } } }),
       ("c", { Error := { Code := "x", Message := "bad" } })]
    let outA := processBatchResults [("score_select", "all")] resp
      ⟨["chatID"], [[("chatID", "a")], [("chatID", "b")], [("chatID", "c")]]⟩
    let outB := processBatchResults [("score_select", "all")] resp
      ⟨["chatID"], [[("chatID", "b")], [("chatID", "a")], [("chatID", "c")]]⟩
    outA.FieldNames = ["chatID", "completion", "score1", "score2"]
  ∧ outB.FieldNames = ["chatID", "completion", "score1", "score2"]
  ∧ (outA.Records.getD 0 []).get "completion" = "3"
  ∧ (outA.Records.getD 1 []).get "completion" = "4 5"
  ∧ (outA.Records.getD 2 []).get "completion" = "error x: bad"
  ∧ (outA.Records.getD 1 []).get "score1" = "4.000000"
  ∧ (outA.Records.getD 1 []).get "score2" = "5.000000"
  ∧ (outA.Records.getD 0 []).get "score1" = ""
  ∧ (outA.Records.getD 0 []).get "score2" = ""
  ∧ (outA.Records.getD 0 []).get "score" = "3.000000"
  ∧ (outA.Records.getD 2 []).get "score1" = ""
  ∧ (outA.Records.getD 2 []).get "score2" = ""
  ∧ (outB.Records.getD 1 []).get "score1" = "3.000000"
  ∧ (outB.Records.getD 1 []).get "score2" = ""
  ∧ (outB.Records.getD 0 []).get "score1" = "4.000000"
  ∧ (outB.Records.getD 0 []).get "score2" = "5.000000" := by
  exact ⟨rfl, rfl, rfl, rfl, rfl, rfl, rfl, rfl, rfl, rfl, rfl, rfl, rfl, rfl, rfl, rfl⟩

end ReconciliationTheorems


section RoundTripTheorems

open psy gocsv gostr

end RoundTripTheorems
